import Mathlib

/-!
Verification of the dependency-variant resolution logic in the
`install_req` block of `.templates/setup.py.template` (nengo-dl).

The Python source is embedded shallowly:

* `sys.argv`, `sys.path` become explicit `List String` parameters;
* `pkg_resources.WorkingSet(source_path)` (the package-metadata query of
  the host packaging ecosystem) is a black-box function
  `ws : List String → List String` mapping a search path to the list of
  installed project names it yields;
* Python string operations `pat in s` and `s.index(pat)` are modelled by
  `pyContains` / `pyIndex` over the character lists (`s.index` raises
  `ValueError` when absent, modelled as `none`), and slicing `s[:i]` by
  `pyTake`;
* the fallible step `path.index("pip")` makes the resolver return
  `Except String _`, with `.error` standing for a raised exception.

`os.path.join("site-packages", "pip")` is evaluated on a posix separator,
as in the environments the template targets.
-/

/-- First index of `pat` as a contiguous sublist of `s` (Python `s.index(pat)`
on character lists), `none` when `pat` does not occur. -/
def strIndexOfAux : List Char → List Char → Option Nat
  | [], pat => if pat.isPrefixOf [] then some 0 else none
  | c :: rest, pat =>
    if pat.isPrefixOf (c :: rest) then some 0
    else (strIndexOfAux rest pat).map (fun i => i + 1)

/-- Python `s.index(pat)` for strings: index of the first occurrence,
`none` models the `ValueError` raised when `pat` is absent. -/
def pyIndex (s pat : String) : Option Nat :=
  strIndexOfAux s.toList pat.toList

/-- Python `pat in s` substring test. -/
def pyContains (s pat : String) : Bool :=
  (pyIndex s pat).isSome

/-- Python slicing `s[:i]` for `0 ≤ i`. -/
def pyTake (s : String) (i : Nat) : String :=
  ⟨s.toList.take i⟩

/-- `target_path = os.path.join("site-packages", "pip")` from the source. -/
def targetPath : String := "site-packages/pip"

/-- The `source_path` computation of the source: the first `sys.path` entry
containing `target_path` is truncated at `path.index("pip")` and wrapped in a
singleton list; if no entry contains the marker, `sys.path` is used
unchanged.  The `.error` case models the `ValueError` that `path.index`
would raise. -/
def sourcePathE (sysPath : List String) : Except String (List String) :=
  match sysPath.find? (fun path => pyContains path targetPath) with
  | some path =>
    match pyIndex path "pip" with
    | some i => Except.ok [pyTake path i]
    | none => Except.error "ValueError: substring not found"
  | none => Except.ok sysPath

/-- The fixed ordered candidate list scanned by the `for d in [...]` loop. -/
def tfCandidates : List String :=
  ["tf-nightly-gpu", "tf-nightly", "tf-nightly-cpu", "tensorflow-gpu",
   "tensorflow-cpu"]

/-- The `for d in tfCandidates: if d in installed_dists: tf_req = d; break
else: tf_req = "tensorflow"` loop of the source. -/
def scanTF (installed_dists : List String) : String :=
  (tfCandidates.find? (fun d => decide (d ∈ installed_dists))).getD "tensorflow"

/-- The whole `tf_req` computation: `"tensorflow"` when `"bdist_wheel"` is in
`sys.argv`, otherwise the candidate scan over the project names that the
metadata query `ws` reports for the recovered `source_path`. -/
def tf_reqE (argv : List String) (ws : List String → List String)
    (sysPath : List String) : Except String String :=
  if "bdist_wheel" ∈ argv then Except.ok "tensorflow"
  else
    match sourcePathE sysPath with
    | Except.ok sp => Except.ok (scanTF (ws sp))
    | Except.error e => Except.error e

/-- The `install_req` manifest list; `"%s>=2.0.0" % tf_req` is string
concatenation. -/
def install_req (tf_req : String) : List String :=
  ["nengo>=3.0.0",
   "numpy>=1.16.0",
   tf_req ++ ">=2.0.0",
   "jinja2>=2.10.1",
   "packaging>=20.0",
   "progressbar2>=3.39.0"]

/-- The six package names the resolver can possibly produce. -/
def tfPackageNames : List String := tfCandidates ++ ["tensorflow"]

/-- A manifest entry is TensorFlow-family when one of the six resolvable
package names is a prefix of the specifier string. -/
def isTFFamilySpec (s : String) : Bool :=
  tfPackageNames.any (fun n => n.toList.isPrefixOf s.toList)


/-- The ambient state the `install_req` block can see: `sys.argv`,
`sys.path`, and the package-metadata query. -/
structure Env where
  argv : List String
  sysPath : List String
  pkgQuery : List String → List String

/-- State-passing translation of the whole `install_req` block: every
statement of the source only reads the environment (or binds a local), so
each branch returns the manifest together with the environment it was
handed. -/
def resolveInstallReq (env : Env) : Except String (List String) × Env :=
  if "bdist_wheel" ∈ env.argv then (Except.ok (install_req "tensorflow"), env)
  else
    match sourcePathE env.sysPath with
    | Except.error e => (Except.error e, env)
    | Except.ok source_path =>
      (Except.ok (install_req (scanTF (env.pkgQuery source_path))), env)

/-! ### The spec-worded truncation rule, for comparison with the code -/

/-- The truncation rule as the spec words it ("truncate the search path at
that marker"): the first matching entry is cut at the occurrence of the
marker segment itself.  Stated from the spec sentence for comparison with
`sourcePathE`; the code instead cuts at the first occurrence of `"pip"`
anywhere in the entry. -/
def sourcePathSpec (sysPath : List String) : List String :=
  match sysPath.find? (fun path => pyContains path targetPath) with
  | some path => [pyTake path ((pyIndex path targetPath).getD 0)]
  | none => sysPath


/-! ### Helper lemmas -/

theorem isPrefixOf_eq (pat s : List Char) :
    pat.isPrefixOf s = true ↔ ∃ t, s = pat ++ t := by
  rw [ List.isPrefixOf_iff_prefix]
  constructor
  · rintro ⟨t, ht⟩
    exact ⟨t, ht.symm⟩
  · rintro ⟨t, ht⟩
    exact ⟨t, ht.symm⟩

theorem strIndexOfAux_isSome (s pat : List Char) :
    (strIndexOfAux s pat).isSome = true ↔ ∃ l r, s = l ++ pat ++ r := by
  induction s with
  | nil =>
    cases pat with
    | nil =>
      constructor
      · intro _
        exact ⟨[], [], rfl⟩
      · intro _
        rfl
    | cons p ps =>
      constructor
      · intro h
        simp [strIndexOfAux, List.isPrefixOf] at h
      · rintro ⟨l, r, hlr⟩
        simp at hlr
  | cons c rest ih =>
    by_cases hp : pat.isPrefixOf (c :: rest) = true
    · rw [show strIndexOfAux (c :: rest) pat = some 0 by
        rw [strIndexOfAux, if_pos hp]]
      obtain ⟨t, ht⟩ := (isPrefixOf_eq pat (c :: rest)).mp hp
      exact ⟨fun _ => ⟨[], t, by simpa using ht⟩, fun _ => rfl⟩
    · rw [show strIndexOfAux (c :: rest) pat
          = (strIndexOfAux rest pat).map (fun i => i + 1) by
        rw [strIndexOfAux, if_neg hp]]
      have hmap : (Option.map (fun i : Nat => i + 1)
          (strIndexOfAux rest pat)).isSome = (strIndexOfAux rest pat).isSome := by
        cases strIndexOfAux rest pat <;> rfl
      rw [hmap, ih]
      constructor
      · rintro ⟨l, r, hlr⟩
        exact ⟨c :: l, r, by simp [hlr]⟩
      · rintro ⟨l, r, hlr⟩
        cases l with
        | nil =>
          exact absurd ((isPrefixOf_eq pat (c :: rest)).mpr
            ⟨r, by simpa using hlr⟩) hp
        | cons x l =>
          simp at hlr
          exact ⟨l, r, by rw [List.append_assoc]; exact hlr.2⟩

theorem pip_of_marker (p : String) (h : pyContains p targetPath = true) :
    (pyIndex p "pip").isSome = true := by
  have h1 : (pyIndex p targetPath).isSome = true := h
  rw [pyIndex, strIndexOfAux_isSome] at h1
  obtain ⟨l, r, hlr⟩ := h1
  rw [pyIndex, strIndexOfAux_isSome]
  refine ⟨l ++ "site-packages/".toList, r, ?_⟩
  have hm : targetPath.toList = "site-packages/".toList ++ "pip".toList := by
    decide
  rw [hlr, hm]
  simp

theorem sourcePathE_ok (sysPath : List String) :
    ∃ sp, sourcePathE sysPath = Except.ok sp := by
  unfold sourcePathE
  cases hfind : sysPath.find? (fun path => pyContains path targetPath) with
  | none => exact ⟨sysPath, rfl⟩
  | some p =>
    have hc : pyContains p targetPath = true := by
      have := List.find?_some hfind
      simpa using this
    obtain ⟨i, hi⟩ := Option.isSome_iff_exists.mp (pip_of_marker p hc)
    refine ⟨[pyTake p i], ?_⟩
    simp [hi]

theorem find?_first_mem (cands installed : List String)
    (hex : ∃ d, d ∈ cands ∧ d ∈ installed) :
    ∃ r, cands.find? (fun d => decide (d ∈ installed)) = some r ∧
      r ∈ cands ∧ r ∈ installed ∧
      ∀ d, d ∈ cands → d ∈ installed →
        cands.indexOf r ≤ cands.indexOf d := by
  induction cands with
  | nil =>
    obtain ⟨d, hd, _⟩ := hex
    cases hd
  | cons a t ih =>
    by_cases ha : a ∈ installed
    · refine ⟨a, ?_, List.mem_cons_self a t, ha, ?_⟩
      · rw [List.find?_cons_of_pos _ (by simpa using ha)]
      · intro d _ _
        rw [List.indexOf_cons_self]
        exact Nat.zero_le _
    · obtain ⟨d, hd, hdi⟩ := hex
      have hdt : d ∈ t := by
        rcases List.mem_cons.mp hd with h | h
        · exact absurd (h ▸ hdi) ha
        · exact h
      obtain ⟨r, hfind, hrc, hri, hmin⟩ := ih ⟨d, hdt, hdi⟩
      have hra : a ≠ r := fun h => ha (h ▸ hri)
      refine ⟨r, ?_, List.mem_cons_of_mem a hrc, hri, ?_⟩
      · rw [List.find?_cons_of_neg _ (by simpa using ha), hfind]
      · intro e he hei
        have hea : a ≠ e := fun h => ha (h ▸ hei)
        have het : e ∈ t := by
          rcases List.mem_cons.mp he with h | h
          · exact absurd (h ▸ hei) ha
          · exact h
        rw [List.indexOf_cons_ne t hra, List.indexOf_cons_ne t hea]
        exact Nat.succ_le_succ (hmin e het hei)

theorem scanTF_spec (installed : List String)
    (hex : ∃ d, d ∈ tfCandidates ∧ d ∈ installed) :
    scanTF installed ∈ tfCandidates ∧ scanTF installed ∈ installed ∧
      ∀ d, d ∈ tfCandidates → d ∈ installed →
        tfCandidates.indexOf (scanTF installed) ≤ tfCandidates.indexOf d := by
  obtain ⟨r, hfind, hrc, hri, hmin⟩ := find?_first_mem tfCandidates installed hex
  have : scanTF installed = r := by
    unfold scanTF
    rw [hfind]
    rfl
  rw [this]
  exact ⟨hrc, hri, hmin⟩

theorem find?_ext {α : Type} (l : List α) (p q : α → Bool)
    (h : ∀ x, x ∈ l → p x = q x) : l.find? p = l.find? q := by
  induction l with
  | nil => rfl
  | cons a t ih =>
    have ha : p a = q a := h a (List.mem_cons_self a t)
    cases hq : q a with
    | true =>
      rw [List.find?_cons_of_pos _ (ha.trans hq), List.find?_cons_of_pos _ hq]
    | false =>
      rw [List.find?_cons_of_neg _ (by simp [ha, hq]),
        List.find?_cons_of_neg _ (by simp [hq])]
      exact ih fun x hx => h x (List.mem_cons_of_mem a hx)

theorem scanTF_congr (l1 l2 : List String)
    (h : ∀ d, d ∈ tfCandidates → (d ∈ l1 ↔ d ∈ l2)) :
    scanTF l1 = scanTF l2 := by
  unfold scanTF
  rw [find?_ext tfCandidates (fun d => decide (d ∈ l1)) (fun d => decide (d ∈ l2))
    (fun d hd => decide_eq_decide.mpr (h d hd))]

theorem scanTF_mem (l : List String) : scanTF l ∈ tfPackageNames := by
  unfold scanTF
  cases hfind : tfCandidates.find? (fun d => decide (d ∈ l)) with
  | none => decide
  | some r =>
    have hr : r ∈ tfCandidates := List.mem_of_find?_eq_some hfind
    exact List.mem_append_left _ hr

theorem tf_reqE_ok (argv : List String) (ws : List String → List String)
    (sysPath : List String) :
    ∃ r, tf_reqE argv ws sysPath = Except.ok r ∧ r ∈ tfPackageNames := by
  by_cases h : "bdist_wheel" ∈ argv
  · exact ⟨"tensorflow", by unfold tf_reqE; rw [if_pos h], by decide⟩
  · obtain ⟨sp, hsp⟩ := sourcePathE_ok sysPath
    refine ⟨scanTF (ws sp), ?_, scanTF_mem _⟩
    unfold tf_reqE
    rw [if_neg h, hsp]
/-! ### Claims -/

/-- Claim C1: in non-portable build mode, with at least one candidate
installed, the resolver scans the fixed ordered candidate list and returns
the first candidate that is a member of the installed set; with several
candidates present the earliest one in the fixed list wins, and the result
is invariant under reordering (permutation) of the installed set. -/
theorem C1_first_candidate_wins (argv sysPath installed installedPerm : List String)
    (hargv : "bdist_wheel" ∉ argv)
    (hperm : installed.Perm installedPerm)
    (hex : ∃ d, d ∈ tfCandidates ∧ d ∈ installed) :
    ∃ r, tf_reqE argv (fun _ => installed) sysPath = Except.ok r ∧
      r ∈ tfCandidates ∧ r ∈ installed ∧
      (∀ d, d ∈ tfCandidates → d ∈ installed →
        tfCandidates.indexOf r ≤ tfCandidates.indexOf d) ∧
      tf_reqE argv (fun _ => installedPerm) sysPath = Except.ok r := by
  obtain ⟨sp, hsp⟩ := sourcePathE_ok sysPath
  obtain ⟨hc, hi, hmin⟩ := scanTF_spec installed hex
  have hcong : scanTF installedPerm = scanTF installed :=
    scanTF_congr installedPerm installed (fun d _ => hperm.symm.mem_iff)
  refine ⟨scanTF installed, ?_, hc, hi, hmin, ?_⟩
  · unfold tf_reqE
    rw [if_neg hargv, hsp]
  · unfold tf_reqE
    rw [if_neg hargv, hsp]
    exact congrArg Except.ok hcong

/-- Witness for C1 at a concrete input: two candidates installed, in the two
possible orders; the resolver picks the one earliest in the fixed list. -/
theorem C1_first_candidate_wins_witness :
    ∃ r, tf_reqE [] (fun _ => ["tensorflow-gpu", "tf-nightly"]) [] = Except.ok r ∧
      r ∈ tfCandidates ∧ r ∈ ["tensorflow-gpu", "tf-nightly"] ∧
      (∀ d, d ∈ tfCandidates → d ∈ ["tensorflow-gpu", "tf-nightly"] →
        tfCandidates.indexOf r ≤ tfCandidates.indexOf d) ∧
      tf_reqE [] (fun _ => ["tf-nightly", "tensorflow-gpu"]) [] = Except.ok r :=
  C1_first_candidate_wins [] [] ["tensorflow-gpu", "tf-nightly"]
    ["tf-nightly", "tensorflow-gpu"] (by decide) (by decide)
    ⟨"tf-nightly", by decide, by decide⟩

/-- Claim C2: when `"bdist_wheel"` occurs in the argument list, the resolver
returns the generic `"tensorflow"` for every metadata query and every module
search path (so the environment is never consulted). -/
theorem C2_portable_generic (argv sysPath : List String)
    (ws : List String → List String)
    (h : "bdist_wheel" ∈ argv) :
    tf_reqE argv ws sysPath = Except.ok "tensorflow" := by
  unfold tf_reqE
  rw [if_pos h]

/-- Witness for C2 at a concrete input with an accelerated variant installed. -/
theorem C2_portable_generic_witness :
    tf_reqE ["bdist_wheel"] (fun _ => ["tensorflow-gpu"]) ["/env/site-packages/pip"] =
      Except.ok "tensorflow" :=
  C2_portable_generic ["bdist_wheel"] ["/env/site-packages/pip"]
    (fun _ => ["tensorflow-gpu"]) (by decide)

/-- Claim C3: in non-portable build mode, when none of the five candidate
names is in the installed set (in particular for the empty set), the
resolver returns the generic `"tensorflow"`. -/
theorem C3_default_generic (argv sysPath installed : List String)
    (hargv : "bdist_wheel" ∉ argv)
    (hnone : ∀ d, d ∈ tfCandidates → d ∉ installed) :
    tf_reqE argv (fun _ => installed) sysPath = Except.ok "tensorflow" := by
  obtain ⟨sp, hsp⟩ := sourcePathE_ok sysPath
  unfold tf_reqE
  rw [if_neg hargv, hsp]
  have hscan : scanTF installed = "tensorflow" := by
    unfold scanTF
    rw [List.find?_eq_none.mpr (fun x hx => by simp [hnone x hx])]
    rfl
  exact congrArg Except.ok hscan

/-- Witness for C3 at the empty installed set. -/
theorem C3_default_generic_witness :
    tf_reqE [] (fun _ => []) [] = Except.ok "tensorflow" :=
  C3_default_generic [] [] [] (by decide) (by decide)
/-- Claim C4: whatever the resolver produces, manifest assembly yields the
fixed ordered six-entry specifier list, each entry with its own minimum
version, and exactly one entry is TensorFlow-family. -/
theorem C4_manifest_unique_tf (argv sysPath : List String)
    (ws : List String → List String) :
    ∃ r, tf_reqE argv ws sysPath = Except.ok r ∧
      install_req r =
        ["nengo>=3.0.0", "numpy>=1.16.0", r ++ ">=2.0.0", "jinja2>=2.10.1",
         "packaging>=20.0", "progressbar2>=3.39.0"] ∧
      (install_req r).countP isTFFamilySpec = 1 := by
  obtain ⟨r, hr, hmem⟩ := tf_reqE_ok argv ws sysPath
  refine ⟨r, hr, rfl, ?_⟩
  fin_cases hmem <;> rfl

/-- Claim C5 counterexample: on the search path entry
`"/pip/site-packages/pip"` (which contains the marker `"site-packages/pip"`)
the code truncates at the first occurrence of `"pip"` and recovers `"/"`,
whereas truncating at the marker itself would give `"/pip/"`; the two
disagree, so the claim as stated fails. -/
theorem C5_counterexample :
    sourcePathE ["/pip/site-packages/pip"] = Except.ok ["/"] ∧
    sourcePathSpec ["/pip/site-packages/pip"] = ["/pip/"] ∧
    ("/" : String) ≠ "/pip/" :=
  ⟨rfl, rfl, by decide⟩

/-- Claim C5 (amended): if no search-path entry contains the marker
`"site-packages/pip"`, the sandbox search path is used unchanged; if some
entry contains it, the first such entry is truncated at the first occurrence
of `"pip"` anywhere in the entry (which lies inside the marker only when
`"pip"` does not occur earlier), and that singleton becomes the search path
used to list installed packages. -/
theorem C5_marker_truncation (sysPath : List String) :
    ((∀ p, p ∈ sysPath → pyContains p targetPath = false) →
      sourcePathE sysPath = Except.ok sysPath) ∧
    (∀ p, sysPath.find? (fun path => pyContains path targetPath) = some p →
      ∃ i, pyIndex p "pip" = some i ∧
        sourcePathE sysPath = Except.ok [pyTake p i]) := by
  constructor
  · intro h
    unfold sourcePathE
    rw [List.find?_eq_none.mpr (fun x hx => by simp [h x hx])]
  · intro p hfind
    have hc : pyContains p targetPath = true := by
      have := List.find?_some hfind
      simpa using this
    obtain ⟨i, hi⟩ := Option.isSome_iff_exists.mp (pip_of_marker p hc)
    refine ⟨i, hi, ?_⟩
    unfold sourcePathE
    rw [hfind]
    simp [hi]

/-- Witness for the amended C5: one path without the marker is kept as is;
a two-entry path whose second entry carries the marker is replaced by the
singleton holding that entry truncated just before its `"pip"` tail. -/
theorem C5_marker_truncation_witness :
    sourcePathE ["/opt/app"] = Except.ok ["/opt/app"] ∧
    sourcePathE ["/opt/app", "/env/site-packages/pip"] =
      Except.ok ["/env/site-packages/"] := by
  constructor
  · exact (C5_marker_truncation ["/opt/app"]).1 (by decide)
  · obtain ⟨i, hi, hs⟩ :=
      (C5_marker_truncation ["/opt/app", "/env/site-packages/pip"]).2
        "/env/site-packages/pip" (by decide)
    have h19 : pyIndex "/env/site-packages/pip" "pip" = some 19 := by decide
    rw [h19] at hi
    obtain rfl := Option.some.inj hi
    rw [show pyTake "/env/site-packages/pip" 19 = "/env/site-packages/" by
      decide] at hs
    exact hs

/-- Claim C6: candidate presence is decided by exact whole-name equality
only: two installed sets agreeing on exact membership of the five candidate
names resolve identically, whatever other (for example superstring) names
they contain, and no version information exists to influence the match. -/
theorem C6_exact_name_match (argv sysPath installed installed2 : List String)
    (hargv : "bdist_wheel" ∉ argv)
    (hsame : ∀ d, d ∈ tfCandidates → (d ∈ installed ↔ d ∈ installed2)) :
    tf_reqE argv (fun _ => installed) sysPath =
      tf_reqE argv (fun _ => installed2) sysPath := by
  obtain ⟨sp, hsp⟩ := sourcePathE_ok sysPath
  unfold tf_reqE
  rw [if_neg hargv, if_neg hargv, hsp]
  exact congrArg Except.ok (scanTF_congr installed installed2 hsame)

/-- Witness for C6: names that merely contain candidate names as substrings
behave exactly like the empty installed set. -/
theorem C6_exact_name_match_witness :
    tf_reqE [] (fun _ => ["tf-nightly-gpu-fork", "my-tensorflow-gpu"]) [] =
      tf_reqE [] (fun _ => []) [] :=
  C6_exact_name_match [] [] ["tf-nightly-gpu-fork", "my-tensorflow-gpu"] []
    (by decide) (by decide)

/-- Claim C7: for every argument list, metadata query and search path, the
resolver terminates with an `Except.ok` carrying a concrete requirement and
the assembled six-entry manifest; no exception (modelled as `.error`)
originates in the resolution logic. -/
theorem C7_total_no_error (argv sysPath : List String)
    (ws : List String → List String) :
    ∃ r, tf_reqE argv ws sysPath = Except.ok r ∧ (install_req r).length = 6 := by
  obtain ⟨r, hr, _⟩ := tf_reqE_ok argv ws sysPath
  exact ⟨r, hr, rfl⟩
/-- Claim C8: resolution and manifest assembly leave the ambient state
(argument list, module search path, package listing) unchanged: the
state-passing translation returns the environment it was given. -/
theorem C8_read_only (env : Env) : (resolveInstallReq env).2 = env := by
  unfold resolveInstallReq
  by_cases h : "bdist_wheel" ∈ env.argv
  · rw [if_pos h]
  · rw [if_neg h]
    cases sourcePathE env.sysPath <;> rfl

/-- Claim C9: the resolved package name is always one of the six strings
tf-nightly-gpu, tf-nightly, tf-nightly-cpu, tensorflow-gpu, tensorflow-cpu,
tensorflow. -/
theorem C9_result_range (argv sysPath : List String)
    (ws : List String → List String) :
    ∃ r, tf_reqE argv ws sysPath = Except.ok r ∧ r ∈ tfPackageNames :=
  tf_reqE_ok argv ws sysPath

/-- Claim C10: whichever of the six names is resolved, the (unique)
TensorFlow-family manifest entry is that name followed by the fixed bound
`">=2.0.0"`; the bound does not vary with the variant. -/
theorem C10_fixed_min_version (argv sysPath : List String)
    (ws : List String → List String) :
    ∃ r, tf_reqE argv ws sysPath = Except.ok r ∧
      (install_req r).filter (fun s => isTFFamilySpec s) = [r ++ ">=2.0.0"] := by
  obtain ⟨r, hr, hmem⟩ := tf_reqE_ok argv ws sysPath
  refine ⟨r, hr, ?_⟩
  fin_cases hmem <;> rfl
